import Mathlib

/-!
# Verification of the llm-d fast-model-actuation launcher

A shallow embedding of the launcher subsystems of the repository
`llm-d-incubation/llm-d-fast-model-actuation`, together with proofs of the
specified properties.

The embedding covers:

* the GPU UUID ⇄ index translator (`src/inference_server/launcher/gputranslator.py`),
  translated directly from the source;
* the per-instance supervisor `stop` / `get_status` operations and the
  file-backed log retrieval and Range-header parser of the multi-instance
  launcher.  The multi-instance launcher module (`VllmInstance`,
  `VllmMultiProcessManager`, `FileWriter`, `parse_range_header`,
  `MAX_LOG_RESPONSE_BYTES`) is imported by the repository's test suite
  (`src/inference_server/launcher/tests/test_launcher.py`) but the module
  itself is not among the source files; those parts are modelled from the
  specification, as noted on each definition.

Python dictionaries are modelled as association lists with insertion-order
semantics: inserting an existing key updates its value in place, inserting a
fresh key appends.  This matches CPython dict behaviour exactly, including
the order of `list(d.keys())`.
-/

/-- Insertion with Python-dict semantics: if the key is present, its value is
updated in place (keeping its position); otherwise the binding is appended. -/
def dictInsert {α β : Type} [DecidableEq α] : List (α × β) → α → β → List (α × β)
  | [], k, v => [(k, v)]
  | (k0, v0) :: rest, k, v =>
    if k0 = k then (k0, v) :: rest
    else (k0, v0) :: dictInsert rest k v

/-- Lookup in an association list, first binding wins (Python `d[k]` on a dict
whose keys are unique). -/
def dictFind? {α β : Type} [DecidableEq α] : List (α × β) → α → Option β
  | [], _ => none
  | (k0, v0) :: rest, k => if k0 = k then some v0 else dictFind? rest k

/-- The keys of an association list, in order (Python `list(d.keys())`). -/
def dictKeys {α β : Type} (m : List (α × β)) : List α := m.map Prod.fst

/-- The values of an association list, in order (Python `list(d.values())`). -/
def dictValues {α β : Type} (m : List (α × β)) : List β := m.map Prod.snd

/-!
## GpuTranslator (translated from `src/inference_server/launcher/gputranslator.py`)

The NVML driver library (`pynvml`) is an external collaborator; it is
abstracted as a record of the outcomes of the NVML calls the translator makes:
`nvmlInit`, `nvmlDeviceGetCount`, and, per index, the composition
`nvmlDeviceGetUUID(nvmlDeviceGetHandleByIndex(i))`.  Each call either
succeeds or raises `pynvml.NVMLError`, carried here as a `String`.
-/

/-- Abstract behaviour of the `pynvml` driver library as observed by
`GpuTranslator._populate_mapping`. `shutdownOk` records whether
`nvmlShutdown` succeeds; a failure there is caught by the same
`except NVMLError` handler and has no effect on the mapping. -/
structure NvmlDriver where
  initOk : Bool
  countResult : Except String Nat
  uuidAt : Nat → Except String String
  shutdownOk : Bool

/-- The enumeration loop of `_populate_mapping`:
`for index in range(device_count): ... self.mapping[uuid] = index`.
The first NVML failure aborts the loop (the exception propagates to the
`except NVMLError` handler), leaving the entries accumulated so far in
`self.mapping`, which is mutated in place. -/
def populateLoop (d : NvmlDriver) : Nat → Nat → List (String × Nat) → List (String × Nat)
  | 0, _, acc => acc
  | n + 1, i, acc =>
    match d.uuidAt i with
    | .error _ => acc
    | .ok uuid => populateLoop d n (i + 1) (dictInsert acc uuid i)

namespace GpuTranslator

/-- `GpuTranslator._populate_mapping`, the part that builds `self.mapping`:
`nvmlInit`, `nvmlDeviceGetCount`, then the enumeration loop, all inside
`try ... except pynvml.NVMLError`, starting from the empty dict set in
`__init__`.  An init or count failure is caught before any entry is added. -/
def populate_mapping (d : NvmlDriver) : List (String × Nat) :=
  if d.initOk then
    match d.countResult with
    | .error _ => []
    | .ok n => populateLoop d n 0 []
  else []

end GpuTranslator

/-- `self.reverse_mapping = {v: k for k, v in self.mapping.items()}`:
a dict comprehension, i.e. left-to-right insertion into a fresh dict. -/
def buildReverse (m : List (String × Nat)) : List (Nat × String) :=
  m.foldl (fun acc kv => dictInsert acc kv.2 kv.1) []

/-- The state of a constructed `GpuTranslator`: the forward mapping
`self.mapping` and the reverse mapping `self.reverse_mapping`. -/
structure GpuTranslator where
  mapping : List (String × Nat)
  reverse_mapping : List (Nat × String)
deriving DecidableEq

/-- The error raised by `uuid_to_index` on an unknown UUID: a `ValueError`
whose message embeds the queried UUID and `list(self.mapping.keys())`. -/
structure UnknownUuidError where
  queried : String
  availableUuids : List String
deriving DecidableEq

/-- The error raised by `index_to_uuid` on an unknown index: a `ValueError`
whose message embeds the queried index and `list(self.reverse_mapping.keys())`. -/
structure UnknownIndexError where
  queried : Nat
  availableIndices : List Nat
deriving DecidableEq

namespace GpuTranslator

/-- `GpuTranslator.__init__`: sets `self.mapping = {}`, then `_check_library`
(raising `ModuleNotFoundError` when the `nvidia-ml-py` distribution is not
installed, before any NVML call), then `_populate_mapping`. The result is
either the constructed translator or the `ModuleNotFoundError` message. -/
def construct (packageInstalled : Bool) (d : NvmlDriver) : Except String GpuTranslator :=
  if packageInstalled then
    let m := populate_mapping d
    .ok { mapping := m, reverse_mapping := buildReverse m }
  else
    .error "package nvidia-ml-py not found. Please install it."

/-- `GpuTranslator.uuid_to_index`: returns `self.mapping[uuid]`, or raises a
`ValueError` listing `list(self.mapping.keys())` when the UUID is absent. -/
def uuid_to_index (t : GpuTranslator) (uuid : String) : Except UnknownUuidError Nat :=
  match dictFind? t.mapping uuid with
  | some index => .ok index
  | none => .error { queried := uuid, availableUuids := dictKeys t.mapping }

/-- `GpuTranslator.index_to_uuid`: returns `self.reverse_mapping[index]`, or
raises a `ValueError` listing `list(self.reverse_mapping.keys())` when the
index is absent. -/
def index_to_uuid (t : GpuTranslator) (index : Nat) : Except UnknownIndexError String :=
  match dictFind? t.reverse_mapping index with
  | some uuid => .ok uuid
  | none => .error { queried := index, availableIndices := dictKeys t.reverse_mapping }

/-- The method call `t.uuid_to_index(u)` as a state transformer: its return
value (or raised error) together with the translator state after the call.
The source method only reads `self.mapping`, so the post-state is `t`. -/
def uuidToIndexCall (t : GpuTranslator) (uuid : String) :
    Except UnknownUuidError Nat × GpuTranslator :=
  (t.uuid_to_index uuid, t)

/-- The method call `t.index_to_uuid(i)` as a state transformer: its return
value (or raised error) together with the translator state after the call.
The source method only reads `self.reverse_mapping`, so the post-state is `t`. -/
def indexToUuidCall (t : GpuTranslator) (index : Nat) :
    Except UnknownIndexError String × GpuTranslator :=
  (t.index_to_uuid index, t)

end GpuTranslator

/-!
## Instance supervisor: `stop` and `get_status`

Modelled from the specification (§4.4 «InstanceSupervisor»), since the
multi-instance launcher module defining `VllmInstance` is not among the
source files; the repository's tests (`TestVllmInstance`) pin the modelled
behaviour: `test_instance_stop_not_running`, `test_instance_force_kill`,
`test_instance_get_status`, `test_stop_terminated_cleans_up_log_file`.

The child process is abstracted by the liveness answers the supervisor
observes: `alive` is `is_alive()` before any signal, `aliveAfterTerm` is
`is_alive()` after `terminate()` followed by `join(timeout)`.  A process
killed with `SIGKILL` to its process group and then joined is dead.
-/

/-- Observable behaviour of one supervised child process. -/
structure ChildProcess where
  pid : Nat
  alive : Bool
  aliveAfterTerm : Bool
deriving DecidableEq

/-- The supervisor lifecycle states of §4.4. -/
inductive InstanceState where
  | NotStarted
  | Running
  | Stopped
  | Terminated
deriving DecidableEq

/-- Supervisor-side record for one instance: the process handle is present
iff the child has been started and not yet reaped by a successful stop. -/
structure VllmInstance where
  instance_id : String
  process : Option ChildProcess
  logFileExists : Bool
  state : InstanceState

/-- The externally visible actions a `stop` performs, in order. `softTerminate`
is `process.terminate()`; `killProcessGroup pid sig` is `os.killpg(pid, sig)`
(the signal reaches the whole process group led by `pid`), as distinguished
from `killPid pid sig` (`os.kill` / `process.kill()`, pid only). -/
inductive StopAction where
  | softTerminate
  | joinWithTimeout (timeout : Nat)
  | joinNoTimeout
  | killProcessGroup (pid : Nat) (signal : Nat)
  | killPid (pid : Nat) (signal : Nat)
  | removeLogFile
deriving DecidableEq

/-- `signal.SIGKILL` on Linux. -/
def SIGKILL : Nat := 9

/-- Result dictionary of `VllmInstance.stop`. -/
structure StopResult where
  status : String
  instance_id : String
  pid : Option Nat
deriving DecidableEq

/-- Result dictionary of `VllmInstance.get_status`. -/
structure StatusResult where
  status : String
  instance_id : String
  pid : Option Nat
deriving DecidableEq

namespace VllmInstance

/-- Modelled from the spec: `VllmInstance.stop(timeout=10)` of §4.4, whose
implementation module is not among the source files.  If the child never
started or is already dead: remove the log file, transition to `Terminated`,
return `not_running` (no PID known) or `terminated` with the PID.  Otherwise
terminate, join with the timeout, escalate to `os.killpg(pid, SIGKILL)` and a
second join when the child survived, remove the log file, transition to
`Terminated`.  Returns the result, the post-state, and the ordered actions. -/
def stop (inst : VllmInstance) (timeout : Nat) :
    StopResult × VllmInstance × List StopAction :=
  match inst.process with
  | none =>
    ({ status := "not_running", instance_id := inst.instance_id, pid := none },
     { inst with process := none, logFileExists := false, state := .Terminated },
     [.removeLogFile])
  | some p =>
    if p.alive then
      if p.aliveAfterTerm then
        ({ status := "terminated", instance_id := inst.instance_id, pid := some p.pid },
         { inst with process := none, logFileExists := false, state := .Terminated },
         [.softTerminate, .joinWithTimeout timeout,
          .killProcessGroup p.pid SIGKILL, .joinNoTimeout, .removeLogFile])
      else
        ({ status := "terminated", instance_id := inst.instance_id, pid := some p.pid },
         { inst with process := none, logFileExists := false, state := .Terminated },
         [.softTerminate, .joinWithTimeout timeout, .removeLogFile])
    else
      ({ status := "terminated", instance_id := inst.instance_id, pid := some p.pid },
       { inst with process := none, logFileExists := false, state := .Terminated },
       [.removeLogFile])

/-- Modelled from the spec: `VllmInstance.get_status()` of §4.4, whose
implementation module is not among the source files.  Returns `not_started`
when no child handle exists, else `running` or `stopped` by `is_alive()`,
with the PID whenever one has been assigned. -/
def get_status (inst : VllmInstance) : StatusResult :=
  match inst.process with
  | none => { status := "not_started", instance_id := inst.instance_id, pid := none }
  | some p =>
    { status := if p.alive then "running" else "stopped",
      instance_id := inst.instance_id, pid := some p.pid }

end VllmInstance

/-!
## File-backed log retrieval

Modelled from the specification (§4.2 «LogFile») and pinned by the tests in
`TestLogFile` and `TestVllmInstanceLogs`; the implementing module is not
among the source files.  The log file is `none` when absent on disk, else
the byte content.  `start` and `endPos` are inclusive byte offsets (HTTP
Range semantics).  Note `test_start_equal_to_length_raises_error`: a start
equal to the (positive) total length also raises.
-/

/-- `MAX_LOG_RESPONSE_BYTES = 1 * 1024 * 1024` (1 MiB response cap). -/
def MAX_LOG_RESPONSE_BYTES : Nat := 1 * 1024 * 1024

/-- The `LogRangeNotAvailable` exception, carrying the requested start offset
and the number of bytes actually available (fields `start_byte` and
`available_bytes` in the tests). -/
structure LogRangeNotAvailable where
  start_byte : Nat
  available_bytes : Nat
deriving DecidableEq

/-- The requested byte count of an inclusive Range window `[start, endPos]`
over a log of `total` bytes: to EOF when `endPos` is absent, truncated at EOF
otherwise. -/
def logWindow (total start : Nat) : Option Nat → Nat
  | none => total - start
  | some e => min (e + 1) total - start

/-- Modelled from the spec: `VllmInstance.get_log_bytes(start=0, end=None)` of
§4.2, whose implementation module is not among the source files.  Returns the
requested window of the log together with the total length, or raises
`LogRangeNotAvailable`.  Behaviour: a missing file with `start = 0` is empty;
a missing file with `start > 0` raises with `available_bytes = 0`; a positive
`start` at or past the total length raises with the total length; otherwise
the inclusive window (to EOF when `endPos` is absent, truncated at EOF
otherwise) is returned, capped at `MAX_LOG_RESPONSE_BYTES`. -/
def get_log_bytes (logFile : Option (List Nat)) (start : Nat) (endPos : Option Nat) :
    Except LogRangeNotAvailable (List Nat × Nat) :=
  match logFile with
  | none =>
    if start = 0 then .ok ([], 0)
    else .error { start_byte := start, available_bytes := 0 }
  | some content =>
    if 0 < start ∧ content.length ≤ start then
      .error { start_byte := start, available_bytes := content.length }
    else
      .ok ((content.drop start).take
             (min (logWindow content.length start endPos) MAX_LOG_RESPONSE_BYTES),
           content.length)

/-!
## Range header parser

Modelled from the specification (§4.3 «Range header parser») and pinned by
the tests in `TestParseRangeHeader`; the implementing module is not among
the source files.  Accepts `bytes=<start>-` and `bytes=<start>-<end>` with
decimal digit positions and `start ≤ end`; everything else is rejected with
a `ValueError` (message "Unsupported or malformed Range header", or
"Range end must be >= start" for inverted ranges).
-/

/-- Split a character list into its longest prefix of decimal digits and the
remainder. -/
def takeDigits : List Char → List Char × List Char
  | [] => ([], [])
  | c :: cs =>
    if c.isDigit then (c :: (takeDigits cs).1, (takeDigits cs).2)
    else ([], c :: cs)

/-- The numeric value of a list of decimal digit characters (Python `int`). -/
def digitsVal (ds : List Char) : Nat :=
  ds.foldl (fun acc c => 10 * acc + (c.toNat - 48)) 0

/-- The part of `parse_range_header` after the `bytes=` unit check: `ds` is
the longest digit run after `bytes=` (the start position), `rest` what
follows it.  A well-formed header continues with a dash and either nothing
(open-ended range) or a digit run spanning the whole remainder (the end
position, which must not be below the start). -/
def parseRangeRest : List Char → List Char → Except String (Nat × Option Nat)
  | [], _ => .error "Unsupported or malformed Range header"
  | _ :: _, [] => .error "Unsupported or malformed Range header"
  | d :: ds, c :: tail =>
    if c = '-' then
      if tail = [] then .ok (digitsVal (d :: ds), none)
      else if (takeDigits tail).1 = [] then
        .error "Unsupported or malformed Range header"
      else if (takeDigits tail).2 = [] then
        if digitsVal (takeDigits tail).1 < digitsVal (d :: ds) then
          .error "Range end must be >= start"
        else .ok (digitsVal (d :: ds), some (digitsVal (takeDigits tail).1))
      else .error "Unsupported or malformed Range header"
    else .error "Unsupported or malformed Range header"

/-- Modelled from the spec: `parse_range_header(header)` of §4.3, whose
implementation module is not among the source files.  Returns
`(start, some end)` for `bytes=<start>-<end>` with `start ≤ end`,
`(start, none)` for `bytes=<start>-`, and an error for every other input
(suffix ranges, other units, non-digit or missing positions, trailing
garbage, inverted ranges). -/
def parse_range_header (header : String) : Except String (Nat × Option Nat) :=
  if header.data.take 6 = "bytes=".data then
    parseRangeRest (takeDigits (header.data.drop 6)).1
      (takeDigits (header.data.drop 6)).2
  else .error "Unsupported or malformed Range header"

/-!
## Association-list lemmas

Facts about `dictInsert` / `dictFind?` needed for the translator proofs:
key-uniqueness is preserved by insertion, lookup agrees with membership on
key-unique lists, and the reverse-mapping comprehension of a value-unique
dict is the swap of its bindings.
-/

@[simp] theorem dictKeys_nil {α β : Type} : dictKeys ([] : List (α × β)) = [] := rfl

@[simp] theorem dictKeys_cons {α β : Type} (kv : α × β) (l : List (α × β)) :
    dictKeys (kv :: l) = kv.1 :: dictKeys l := rfl

@[simp] theorem dictValues_nil {α β : Type} : dictValues ([] : List (α × β)) = [] := rfl

@[simp] theorem dictValues_cons {α β : Type} (kv : α × β) (l : List (α × β)) :
    dictValues (kv :: l) = kv.2 :: dictValues l := rfl

theorem dictInsert_cons_eq {α β : Type} [DecidableEq α] (k : α) (v0 v : β)
    (rest : List (α × β)) :
    dictInsert ((k, v0) :: rest) k v = (k, v) :: rest := by
  show (if k = k then (k, v) :: rest else (k, v0) :: dictInsert rest k v) = (k, v) :: rest
  exact if_pos rfl

theorem dictInsert_cons_ne {α β : Type} [DecidableEq α] {k0 k : α} (h : k0 ≠ k)
    (v0 v : β) (rest : List (α × β)) :
    dictInsert ((k0, v0) :: rest) k v = (k0, v0) :: dictInsert rest k v := by
  show (if k0 = k then (k0, v) :: rest else (k0, v0) :: dictInsert rest k v) = _
  exact if_neg h

theorem dictFind?_cons_eq {α β : Type} [DecidableEq α] (k : α) (v0 : β)
    (rest : List (α × β)) :
    dictFind? ((k, v0) :: rest) k = some v0 := by
  show (if k = k then some v0 else dictFind? rest k) = some v0
  exact if_pos rfl

theorem dictFind?_cons_ne {α β : Type} [DecidableEq α] {k0 k : α} (h : k0 ≠ k)
    (v0 : β) (rest : List (α × β)) :
    dictFind? ((k0, v0) :: rest) k = dictFind? rest k := by
  show (if k0 = k then some v0 else dictFind? rest k) = dictFind? rest k
  exact if_neg h

theorem dictFind?_eq_none {α β : Type} [DecidableEq α] (m : List (α × β)) (k : α) :
    dictFind? m k = none ↔ k ∉ dictKeys m := by
  induction m with
  | nil => simp [dictFind?]
  | cons kv rest ih =>
    obtain ⟨k0, v0⟩ := kv
    by_cases hk : k0 = k
    · subst hk
      rw [dictFind?_cons_eq, dictKeys_cons]
      simp
    · rw [dictFind?_cons_ne hk, dictKeys_cons, List.mem_cons, ih]
      constructor
      · intro h hor
        rcases hor with h1 | h2
        · exact hk h1.symm
        · exact h h2
      · intro h h2
        exact h (Or.inr h2)

theorem mem_of_dictFind? {α β : Type} [DecidableEq α] :
    ∀ {m : List (α × β)} {k : α} {v : β}, dictFind? m k = some v → (k, v) ∈ m
  | [], _, _, h => by simp [dictFind?] at h
  | (k0, v0) :: rest, k, v, h => by
    by_cases hk : k0 = k
    · subst hk
      rw [dictFind?_cons_eq] at h
      injection h with h
      subst h
      exact List.mem_cons_self _ _
    · rw [dictFind?_cons_ne hk] at h
      exact List.mem_cons_of_mem _ (mem_of_dictFind? h)

theorem dictFind?_of_mem {α β : Type} [DecidableEq α] :
    ∀ {m : List (α × β)} {k : α} {v : β},
      (dictKeys m).Nodup → (k, v) ∈ m → dictFind? m k = some v
  | [], _, _, _, h => by simp at h
  | (k0, v0) :: rest, k, v, hnd, h => by
    rw [dictKeys_cons, List.nodup_cons] at hnd
    rcases List.mem_cons.mp h with heq | hmem
    · have hk : k = k0 := congrArg Prod.fst heq
      have hv : v = v0 := congrArg Prod.snd heq
      subst hk
      subst hv
      exact dictFind?_cons_eq k v rest
    · have hk : k0 ≠ k := by
        intro hke
        subst hke
        have : k0 ∈ dictKeys rest := List.mem_map_of_mem Prod.fst hmem
        exact hnd.1 this
      rw [dictFind?_cons_ne hk]
      exact dictFind?_of_mem hnd.2 hmem

theorem mem_dictKeys_dictInsert {α β : Type} [DecidableEq α] :
    ∀ (m : List (α × β)) (k : α) (v : β) (a : α),
      a ∈ dictKeys (dictInsert m k v) ↔ a = k ∨ a ∈ dictKeys m
  | [], k, v, a => by simp [dictInsert]
  | (k0, v0) :: rest, k, v, a => by
    by_cases hk : k0 = k
    · subst hk
      rw [dictInsert_cons_eq, dictKeys_cons, dictKeys_cons]
      simp only [List.mem_cons]
      tauto
    · rw [dictInsert_cons_ne hk, dictKeys_cons, dictKeys_cons]
      simp only [List.mem_cons, mem_dictKeys_dictInsert rest k v a]
      tauto

theorem nodup_dictKeys_dictInsert {α β : Type} [DecidableEq α] :
    ∀ (m : List (α × β)) (k : α) (v : β),
      (dictKeys m).Nodup → (dictKeys (dictInsert m k v)).Nodup
  | [], k, v, _ => by simp [dictInsert]
  | (k0, v0) :: rest, k, v, hnd => by
    rw [dictKeys_cons, List.nodup_cons] at hnd
    by_cases hk : k0 = k
    · subst hk
      rw [dictInsert_cons_eq, dictKeys_cons, List.nodup_cons]
      exact ⟨hnd.1, hnd.2⟩
    · rw [dictInsert_cons_ne hk, dictKeys_cons, List.nodup_cons]
      refine ⟨?_, nodup_dictKeys_dictInsert rest k v hnd.2⟩
      intro hmem
      rcases (mem_dictKeys_dictInsert rest k v k0).mp hmem with h | h
      · exact hk h
      · exact hnd.1 h

theorem mem_dictValues_dictInsert {α β : Type} [DecidableEq α] :
    ∀ (m : List (α × β)) (k : α) (v : β) (b : β),
      b ∈ dictValues (dictInsert m k v) → b = v ∨ b ∈ dictValues m
  | [], k, v, b, h => by simpa [dictInsert] using h
  | (k0, v0) :: rest, k, v, b, h => by
    by_cases hk : k0 = k
    · subst hk
      rw [dictInsert_cons_eq, dictValues_cons, List.mem_cons] at h
      rcases h with h1 | h1
      · exact Or.inl h1
      · refine Or.inr ?_
        rw [dictValues_cons]
        exact List.mem_cons_of_mem _ h1
    · rw [dictInsert_cons_ne hk, dictValues_cons, List.mem_cons] at h
      rcases h with h1 | h1
      · refine Or.inr ?_
        rw [dictValues_cons, h1]
        exact List.mem_cons_self _ _
      · rcases mem_dictValues_dictInsert rest k v b h1 with h2 | h2
        · exact Or.inl h2
        · refine Or.inr ?_
          rw [dictValues_cons]
          exact List.mem_cons_of_mem _ h2

theorem nodup_dictValues_dictInsert {α β : Type} [DecidableEq α] :
    ∀ (m : List (α × β)) (k : α) (v : β),
      (dictValues m).Nodup → v ∉ dictValues m →
      (dictValues (dictInsert m k v)).Nodup
  | [], k, v, _, _ => by simp [dictInsert]
  | (k0, v0) :: rest, k, v, hnd, hv => by
    rw [dictValues_cons, List.nodup_cons] at hnd
    rw [dictValues_cons, List.mem_cons] at hv
    push_neg at hv
    by_cases hk : k0 = k
    · subst hk
      rw [dictInsert_cons_eq, dictValues_cons, List.nodup_cons]
      exact ⟨hv.2, hnd.2⟩
    · rw [dictInsert_cons_ne hk, dictValues_cons, List.nodup_cons]
      refine ⟨?_, nodup_dictValues_dictInsert rest k v hnd.2 hv.2⟩
      intro hmem
      rcases mem_dictValues_dictInsert rest k v v0 hmem with h | h
      · exact hv.1 h.symm
      · exact hnd.1 h

theorem dictInsert_eq_append {α β : Type} [DecidableEq α] :
    ∀ (m : List (α × β)) (k : α) (v : β), k ∉ dictKeys m →
      dictInsert m k v = m ++ [(k, v)]
  | [], _, _, _ => rfl
  | (k0, v0) :: rest, k, v, h => by
    rw [dictKeys_cons, List.mem_cons] at h
    push_neg at h
    rw [dictInsert_cons_ne (Ne.symm h.1), dictInsert_eq_append rest k v h.2]
    rfl

/-!
## Invariants of the translator construction

`populateLoop` assigns each inserted binding a fresh index, so both the keys
and the values of `self.mapping` are duplicate-free; consequently the dict
comprehension building `self.reverse_mapping` never overwrites and is exactly
the list of swapped bindings.
-/

theorem populateLoop_invariant (d : NvmlDriver) :
    ∀ (n i : Nat) (acc : List (String × Nat)),
      (dictKeys acc).Nodup → (dictValues acc).Nodup →
      (∀ b ∈ dictValues acc, b < i) →
      (dictKeys (populateLoop d n i acc)).Nodup ∧
      (dictValues (populateLoop d n i acc)).Nodup
  | 0, i, acc, h1, h2, _ => by
    simpa [populateLoop] using ⟨h1, h2⟩
  | n + 1, i, acc, h1, h2, h3 => by
    rw [populateLoop]
    cases hres : d.uuidAt i with
    | error e => exact ⟨h1, h2⟩
    | ok u =>
      have hvnotin : i ∉ dictValues acc := fun hmem => lt_irrefl i (h3 i hmem)
      refine populateLoop_invariant d n (i + 1) (dictInsert acc u i)
        (nodup_dictKeys_dictInsert acc u i h1)
        (nodup_dictValues_dictInsert acc u i h2 hvnotin) ?_
      intro b hb
      rcases mem_dictValues_dictInsert acc u i b hb with h | h
      · omega
      · exact Nat.lt_succ_of_lt (h3 b h)

theorem populate_mapping_nodup (d : NvmlDriver) :
    (dictKeys (GpuTranslator.populate_mapping d)).Nodup ∧
    (dictValues (GpuTranslator.populate_mapping d)).Nodup := by
  unfold GpuTranslator.populate_mapping
  by_cases h : d.initOk = true
  · rw [if_pos h]
    cases hc : d.countResult with
    | error e => simp
    | ok n => exact populateLoop_invariant d n 0 [] (by simp) (by simp) (by simp)
  · rw [if_neg h]
    simp

theorem foldl_dictInsert_swap :
    ∀ (m : List (String × Nat)) (acc : List (Nat × String)),
      (dictValues m).Nodup →
      (∀ b ∈ dictValues m, b ∉ dictKeys acc) →
      m.foldl (fun a kv => dictInsert a kv.2 kv.1) acc = acc ++ m.map Prod.swap
  | [], acc, _, _ => by simp
  | (u, i) :: rest, acc, hnd, hdisj => by
    rw [dictValues_cons, List.nodup_cons] at hnd
    rw [List.foldl_cons]
    have hi : i ∉ dictKeys acc := by
      refine hdisj i ?_
      rw [dictValues_cons]
      exact List.mem_cons_self _ _
    rw [dictInsert_eq_append acc i u hi]
    rw [foldl_dictInsert_swap rest (acc ++ [(i, u)]) hnd.2 ?_]
    · simp
    · intro b hb hbmem
      have hsplit : b ∈ dictKeys acc ∨ b = i := by
        simpa [dictKeys] using hbmem
      rcases hsplit with h | h
      · refine hdisj b ?_ h
        rw [dictValues_cons]
        exact List.mem_cons_of_mem _ hb
      · subst h
        exact hnd.1 hb

theorem buildReverse_eq_map_swap (m : List (String × Nat))
    (hnd : (dictValues m).Nodup) : buildReverse m = m.map Prod.swap := by
  have h := foldl_dictInsert_swap m [] hnd (by simp)
  simpa [buildReverse] using h

theorem dictKeys_map_swap (m : List (String × Nat)) :
    dictKeys (m.map Prod.swap) = dictValues m := by
  induction m with
  | nil => rfl
  | cons kv rest ih =>
    obtain ⟨u, i⟩ := kv
    rw [List.map_cons, dictKeys_cons, dictValues_cons, ih]
    rfl

theorem mem_map_swap (m : List (String × Nat)) (i : Nat) (u : String) :
    (i, u) ∈ m.map Prod.swap ↔ (u, i) ∈ m := by
  constructor
  · intro h
    rcases List.mem_map.mp h with ⟨⟨a, b⟩, hab, he⟩
    have h1 : b = i := congrArg Prod.fst he
    have h2 : a = u := congrArg Prod.snd he
    subst h1
    subst h2
    exact hab
  · intro h
    exact List.mem_map.mpr ⟨(u, i), h, rfl⟩

theorem uuid_to_index_ok_iff (t : GpuTranslator) (u : String) (i : Nat) :
    t.uuid_to_index u = .ok i ↔ dictFind? t.mapping u = some i := by
  unfold GpuTranslator.uuid_to_index
  cases h : dictFind? t.mapping u with
  | none => simp
  | some j => simp

theorem index_to_uuid_ok_iff (t : GpuTranslator) (i : Nat) (u : String) :
    t.index_to_uuid i = .ok u ↔ dictFind? t.reverse_mapping i = some u := by
  unfold GpuTranslator.index_to_uuid
  cases h : dictFind? t.reverse_mapping i with
  | none => simp
  | some v => simp

/-!
## Claims about the GpuTranslator
-/

/-- Claim C4: for every UUID u enumerated by the GPU translator (i.e. present
in its mapping), `index_to_uuid (uuid_to_index u) = u`, and symmetrically for
every enumerated ordinal index. -/
theorem gpu_uuid_index_roundtrip (packageInstalled : Bool) (d : NvmlDriver)
    (t : GpuTranslator) (ht : GpuTranslator.construct packageInstalled d = .ok t) :
    (∀ u i, t.uuid_to_index u = .ok i → t.index_to_uuid i = .ok u) ∧
    (∀ i u, t.index_to_uuid i = .ok u → t.uuid_to_index u = .ok i) := by
  cases packageInstalled with
  | false => simp [GpuTranslator.construct] at ht
  | true =>
    have h2 : ({ mapping := GpuTranslator.populate_mapping d,
                 reverse_mapping := buildReverse (GpuTranslator.populate_mapping d) } :
                 GpuTranslator) = t := by
      simpa [GpuTranslator.construct] using ht
    subst h2
    obtain ⟨hknd, hvnd⟩ := populate_mapping_nodup d
    have hrev : buildReverse (GpuTranslator.populate_mapping d) =
        (GpuTranslator.populate_mapping d).map Prod.swap :=
      buildReverse_eq_map_swap _ hvnd
    constructor
    · intro u i hui
      rw [uuid_to_index_ok_iff] at hui
      have hmem : (u, i) ∈ GpuTranslator.populate_mapping d := mem_of_dictFind? hui
      rw [index_to_uuid_ok_iff]
      show dictFind? (buildReverse (GpuTranslator.populate_mapping d)) i = some u
      rw [hrev]
      refine dictFind?_of_mem ?_ ((mem_map_swap _ i u).mpr hmem)
      rw [dictKeys_map_swap]
      exact hvnd
    · intro i u hiu
      rw [index_to_uuid_ok_iff] at hiu
      have hmem : (i, u) ∈ buildReverse (GpuTranslator.populate_mapping d) :=
        mem_of_dictFind? hiu
      rw [hrev] at hmem
      have hmem2 : (u, i) ∈ GpuTranslator.populate_mapping d :=
        (mem_map_swap _ i u).mp hmem
      rw [uuid_to_index_ok_iff]
      exact dictFind?_of_mem hknd hmem2

/-- Witness for C4 at a two-device driver. -/
theorem gpu_uuid_index_roundtrip_witness :
    GpuTranslator.index_to_uuid
      ⟨[("GPU-a", 0), ("GPU-b", 1)], [(0, "GPU-a"), (1, "GPU-b")]⟩ 0 = .ok "GPU-a" :=
  (gpu_uuid_index_roundtrip true
    ⟨true, .ok 2, fun i => if i = 0 then .ok "GPU-a" else .ok "GPU-b", true⟩
    ⟨[("GPU-a", 0), ("GPU-b", 1)], [(0, "GPU-a"), (1, "GPU-b")]⟩
    rfl).1 "GPU-a" 0 rfl

/-- Claim C5: an unknown UUID (resp. index) makes `uuid_to_index`
(resp. `index_to_uuid`) fail with an unknown-device error listing all
currently available UUIDs (resp. indices), and the failed lookup leaves the
translator state unchanged. -/
theorem gpu_unknown_lookup_error_lists_available (t : GpuTranslator)
    (u : String) (i : Nat) :
    (u ∉ dictKeys t.mapping →
      t.uuidToIndexCall u =
        (.error { queried := u, availableUuids := dictKeys t.mapping }, t)) ∧
    (i ∉ dictKeys t.reverse_mapping →
      t.indexToUuidCall i =
        (.error { queried := i, availableIndices := dictKeys t.reverse_mapping }, t)) := by
  constructor
  · intro h
    have hf : dictFind? t.mapping u = none := (dictFind?_eq_none _ _).mpr h
    simp [GpuTranslator.uuidToIndexCall, GpuTranslator.uuid_to_index, hf]
  · intro h
    have hf : dictFind? t.reverse_mapping i = none := (dictFind?_eq_none _ _).mpr h
    simp [GpuTranslator.indexToUuidCall, GpuTranslator.index_to_uuid, hf]

/-- Witness for C5 at a one-device translator and an unknown UUID. -/
theorem gpu_unknown_lookup_error_lists_available_witness :
    GpuTranslator.uuidToIndexCall ⟨[("GPU-a", 0)], [(0, "GPU-a")]⟩ "GPU-x" =
      (.error { queried := "GPU-x", availableUuids := ["GPU-a"] },
       ⟨[("GPU-a", 0)], [(0, "GPU-a")]⟩) :=
  (gpu_unknown_lookup_error_lists_available
    ⟨[("GPU-a", 0)], [(0, "GPU-a")]⟩ "GPU-x" 7).1 (by decide)

/-- A driver that initializes, reports two devices, enumerates device 0
successfully and fails with an NVML error on device 1 (for claim C6). -/
def nvmlMidEnumFailDriver : NvmlDriver :=
  { initOk := true, countResult := .ok 2,
    uuidAt := fun i => if i = 0 then .ok "GPU-0" else .error "simulated NVML failure",
    shutdownOk := true }

/-- The translator state produced from `nvmlMidEnumFailDriver`. -/
def gpuTranslatorPartial : GpuTranslator :=
  { mapping := [("GPU-0", 0)], reverse_mapping := [(0, "GPU-0")] }

/-- Counterexample to claim C6 as stated: a driver failure *during
enumeration* (device 1 of 2 fails) does not leave the mapping empty — the
device enumerated before the failure remains, and its lookup succeeds. -/
theorem gpu_enumeration_failure_nonempty_mapping_cex :
    nvmlMidEnumFailDriver.uuidAt 1 = .error "simulated NVML failure" ∧
    nvmlMidEnumFailDriver.countResult = .ok 2 ∧
    GpuTranslator.construct true nvmlMidEnumFailDriver = .ok gpuTranslatorPartial ∧
    gpuTranslatorPartial.mapping ≠ [] ∧
    gpuTranslatorPartial.uuid_to_index "GPU-0" = .ok 0 := by
  refine ⟨rfl, rfl, rfl, ?_, rfl⟩
  decide

/-- A driver whose `nvmlInit` fails (for claim C6). -/
def nvmlInitFailDriver : NvmlDriver :=
  { initOk := false, countResult := .ok 0,
    uuidAt := fun _ => .error "not initialized", shutdownOk := true }

/-- Claim C6 (amended): if the driver library fails during initialization or
when reporting the device count — i.e. before any device is enumerated — the
translator's mappings are empty and every subsequent lookup fails with an
unknown-device error (listing no available identifiers).  A failure in the
middle of enumeration instead keeps the entries added before the failure. -/
theorem gpu_init_failure_empty_mapping (d : NvmlDriver) (t : GpuTranslator)
    (ht : GpuTranslator.construct true d = .ok t)
    (hfail : d.initOk = false ∨ ∃ e, d.countResult = .error e) :
    t.mapping = [] ∧ t.reverse_mapping = [] ∧
    (∀ u, t.uuid_to_index u = .error { queried := u, availableUuids := [] }) ∧
    (∀ i, t.index_to_uuid i = .error { queried := i, availableIndices := [] }) := by
  have hm : GpuTranslator.populate_mapping d = [] := by
    unfold GpuTranslator.populate_mapping
    rcases hfail with h | ⟨e, he⟩
    · rw [h]
      rfl
    · by_cases hinit : d.initOk = true
      · rw [if_pos hinit, he]
      · rw [if_neg hinit]
  have h2 : ({ mapping := ([] : List (String × Nat)), reverse_mapping := [] } :
      GpuTranslator) = t := by
    simpa [GpuTranslator.construct, hm, buildReverse] using ht
  subst h2
  exact ⟨rfl, rfl, fun u => rfl, fun i => rfl⟩

/-- Witness for the amended C6 at a driver whose init fails. -/
theorem gpu_init_failure_empty_mapping_witness :
    GpuTranslator.uuid_to_index ⟨[], []⟩ "GPU-x" =
      .error { queried := "GPU-x", availableUuids := [] } :=
  (gpu_init_failure_empty_mapping nvmlInitFailDriver ⟨[], []⟩ rfl
    (Or.inl rfl)).2.2.1 "GPU-x"

/-- Claim C10: when the `nvidia-ml-py` distribution is not installed, the
constructor raises `ModuleNotFoundError` before any device enumeration is
attempted — no translator value is produced, and the outcome does not depend
on the driver at all. -/
theorem gpu_missing_package_no_translator (d : NvmlDriver) :
    GpuTranslator.construct false d =
      .error "package nvidia-ml-py not found. Please install it." ∧
    (∀ d2 : NvmlDriver,
      GpuTranslator.construct false d = GpuTranslator.construct false d2) :=
  ⟨rfl, fun _ => rfl⟩

/-!
## Claims about the instance supervisor
-/

/-- Claim C1: a stop of a child that is still alive after the soft-termination
signal and the bounded wait sends `SIGKILL` to the child's process group
(`os.killpg`, never a pid-only kill) and then waits again for the child. -/
theorem stop_escalates_to_process_group_kill (inst : VllmInstance) (t : Nat)
    (p : ChildProcess) (hp : inst.process = some p) (halive : p.alive = true)
    (hsurv : p.aliveAfterTerm = true) :
    (VllmInstance.stop inst t).2.2 =
      [.softTerminate, .joinWithTimeout t, .killProcessGroup p.pid SIGKILL,
       .joinNoTimeout, .removeLogFile] ∧
    (∀ q s, StopAction.killPid q s ∉ (VllmInstance.stop inst t).2.2) := by
  obtain ⟨id, proc, lf, st⟩ := inst
  obtain ⟨pid, alive, surv⟩ := p
  cases hp
  cases halive
  cases hsurv
  refine ⟨rfl, ?_⟩
  intro q s
  simp [VllmInstance.stop]

/-- Witness for C1: a live child (pid 4242) that survives soft termination. -/
theorem stop_escalates_to_process_group_kill_witness :
    (VllmInstance.stop ⟨"w1", some ⟨4242, true, true⟩, true, .Running⟩ 10).2.2 =
      [.softTerminate, .joinWithTimeout 10, .killProcessGroup 4242 SIGKILL,
       .joinNoTimeout, .removeLogFile] :=
  (stop_escalates_to_process_group_kill
    ⟨"w1", some ⟨4242, true, true⟩, true, .Running⟩ 10 ⟨4242, true, true⟩
    rfl rfl rfl).1

/-- Claim C2: stopping an instance whose child never started or is already
dead removes the log file, transitions the instance to `Terminated`, and
returns status `not_running` (when no PID is known) or `terminated` with the
PID (when one is known) — never any other status string. -/
theorem stop_not_running_result (inst : VllmInstance) (t : Nat)
    (h : inst.process = none ∨ ∃ p, inst.process = some p ∧ p.alive = false) :
    (VllmInstance.stop inst t).2.1.logFileExists = false ∧
    (VllmInstance.stop inst t).2.1.state = .Terminated ∧
    StopAction.removeLogFile ∈ (VllmInstance.stop inst t).2.2 ∧
    ((inst.process = none ∧ (VllmInstance.stop inst t).1.status = "not_running" ∧
        (VllmInstance.stop inst t).1.pid = none) ∨
     (∃ p, inst.process = some p ∧
        (VllmInstance.stop inst t).1.status = "terminated" ∧
        (VllmInstance.stop inst t).1.pid = some p.pid)) := by
  obtain ⟨id, proc, lf, st⟩ := inst
  rcases h with h | ⟨p, hp, hdead⟩
  · cases h
    refine ⟨rfl, rfl, ?_, Or.inl ⟨rfl, rfl, rfl⟩⟩
    simp [VllmInstance.stop]
  · obtain ⟨pid, alive, surv⟩ := p
    cases hp
    cases hdead
    refine ⟨rfl, rfl, ?_, Or.inr ⟨⟨pid, false, surv⟩, rfl, rfl, rfl⟩⟩
    simp [VllmInstance.stop]

/-- Witness for C2: stopping a never-started instance. -/
theorem stop_not_running_result_witness :
    (VllmInstance.stop ⟨"w2", none, true, .NotStarted⟩ 10).1.status =
      "not_running" :=
  ((stop_not_running_result ⟨"w2", none, true, .NotStarted⟩ 10
      (Or.inl rfl)).2.2.2).elim
    (fun hcase => hcase.2.1)
    (fun hcase => absurd hcase.choose_spec.1 (by simp))

/-- Claim C3: `get_status` always reports one of exactly
`not_started` / `running` / `stopped`, includes the PID precisely when a
child handle has been assigned, and reports `stopped` precisely when a child
was started and has exited on its own. -/
theorem get_status_values (inst : VllmInstance) :
    ((VllmInstance.get_status inst).status = "not_started" ∨
     (VllmInstance.get_status inst).status = "running" ∨
     (VllmInstance.get_status inst).status = "stopped") ∧
    ((VllmInstance.get_status inst).pid = none ↔ inst.process = none) ∧
    (∀ p, inst.process = some p →
      (VllmInstance.get_status inst).pid = some p.pid) ∧
    ((VllmInstance.get_status inst).status = "stopped" ↔
      ∃ p, inst.process = some p ∧ p.alive = false) := by
  obtain ⟨id, proc, lf, st⟩ := inst
  cases proc with
  | none =>
    refine ⟨Or.inl rfl, by simp [VllmInstance.get_status], ?_, ?_⟩
    · intro p hp
      cases hp
    · constructor
      · intro hs
        have hs2 : "not_started" = "stopped" := hs
        exact absurd hs2 (by decide)
      · rintro ⟨p, hp, -⟩
        cases hp
  | some p =>
    obtain ⟨pid, alive, surv⟩ := p
    cases alive with
    | true =>
      refine ⟨Or.inr (Or.inl rfl), by simp [VllmInstance.get_status], ?_, ?_⟩
      · intro q hq
        cases hq
        rfl
      · constructor
        · intro hs
          have hs2 : "running" = "stopped" := hs
          exact absurd hs2 (by decide)
        · rintro ⟨q, hq, hfalse⟩
          cases hq
          cases hfalse
    | false =>
      refine ⟨Or.inr (Or.inr rfl), by simp [VllmInstance.get_status], ?_, ?_⟩
      · intro q hq
        cases hq
        rfl
      · exact ⟨fun _ => ⟨⟨pid, false, surv⟩, rfl, rfl⟩, fun _ => rfl⟩

/-- Witness for C3: a started child that has exited on its own. -/
theorem get_status_values_witness :
    (VllmInstance.get_status ⟨"w3", some ⟨7, false, false⟩, true, .Running⟩).pid =
      some 7 :=
  (get_status_values ⟨"w3", some ⟨7, false, false⟩, true, .Running⟩).2.2.1
    ⟨7, false, false⟩ rfl

/-!
## Claims about the log retrieval
-/

/-- Claim C7: a ranged log read whose start lies strictly past the total
length fails with `LogRangeNotAvailable` carrying exactly that start and the
total length (so it never returns bytes), and a read with positive start when
no log file exists fails the same way with zero available bytes. -/
theorem log_range_past_eof (content : List Nat) (start : Nat)
    (endPos : Option Nat) :
    (content.length < start →
      get_log_bytes (some content) start endPos =
        .error { start_byte := start, available_bytes := content.length }) ∧
    (0 < start →
      get_log_bytes none start endPos =
        .error { start_byte := start, available_bytes := 0 }) := by
  constructor
  · intro h
    simp only [get_log_bytes]
    rw [if_pos (by omega)]
  · intro h
    simp only [get_log_bytes]
    rw [if_neg (by omega)]

/-- Witness for C7: reading from offset 50 of a 20-byte log. -/
theorem log_range_past_eof_witness :
    get_log_bytes (some (List.replicate 20 65)) 50 none =
      .error { start_byte := 50, available_bytes := 20 } :=
  (log_range_past_eof (List.replicate 20 65) 50 none).1 (by decide)

/-- Claim C8: for every in-bounds inclusive window `0 ≤ start ≤ end <
total_length`, `get_log_bytes` returns exactly
`min (end - start + 1) MAX_LOG_RESPONSE_BYTES` bytes — the corresponding
substring of the full log, capped by `MAX_LOG_RESPONSE_BYTES = 1 MiB`. -/
theorem log_range_exactness (content : List Nat) (s e : Nat)
    (hse : s ≤ e) (he : e < content.length) :
    get_log_bytes (some content) s (some e) =
      .ok ((content.drop s).take (min (e - s + 1) MAX_LOG_RESPONSE_BYTES),
           content.length) ∧
    ((content.drop s).take (min (e - s + 1) MAX_LOG_RESPONSE_BYTES)).length =
      min (e - s + 1) MAX_LOG_RESPONSE_BYTES ∧
    MAX_LOG_RESPONSE_BYTES = 1024 * 1024 := by
  refine ⟨?_, ?_, rfl⟩
  · simp only [get_log_bytes]
    rw [if_neg (by omega)]
    have hw : logWindow content.length s (some e) = e - s + 1 := by
      simp only [logWindow]
      omega
    rw [hw]
  · rw [List.length_take, List.length_drop]
    generalize MAX_LOG_RESPONSE_BYTES = M
    omega

/-- Witness log for C8: 20 bytes of A, then B, then C (as in the tests). -/
def witnessLog60 : List Nat :=
  List.replicate 20 65 ++ (List.replicate 20 66 ++ List.replicate 20 67)

/-- Witness for C8: the window 10–39 of a 60-byte log. -/
theorem log_range_exactness_witness :
    get_log_bytes (some witnessLog60) 10 (some 39) =
      .ok ((witnessLog60.drop 10).take (min (39 - 10 + 1) MAX_LOG_RESPONSE_BYTES),
           witnessLog60.length) :=
  (log_range_exactness witnessLog60 10 39 (by decide) (by decide)).1

/-!
## Range-parser lemmas

`takeDigits` splits its input into the longest digit prefix and the
remainder; conversely, it recovers a digit run placed before a non-digit
boundary.  These two facts characterize the parser's accepted language.
-/

theorem takeDigits_cons_digit {c : Char} (hc : c.isDigit = true) (cs : List Char) :
    takeDigits (c :: cs) = (c :: (takeDigits cs).1, (takeDigits cs).2) := by
  simp [takeDigits, hc]

theorem takeDigits_cons_nondigit {c : Char} (hc : c.isDigit = false) (cs : List Char) :
    takeDigits (c :: cs) = ([], c :: cs) := by
  simp [takeDigits, hc]

theorem takeDigits_append_eq : ∀ cs : List Char,
    (takeDigits cs).1 ++ (takeDigits cs).2 = cs
  | [] => rfl
  | c :: cs => by
    cases hdig : c.isDigit with
    | true =>
      rw [takeDigits_cons_digit hdig]
      show c :: ((takeDigits cs).1 ++ (takeDigits cs).2) = c :: cs
      rw [takeDigits_append_eq cs]
    | false =>
      rw [takeDigits_cons_nondigit hdig]
      rfl

theorem takeDigits_all_digits : ∀ cs : List Char,
    (takeDigits cs).1.all Char.isDigit = true
  | [] => rfl
  | c :: cs => by
    cases hdig : c.isDigit with
    | true =>
      rw [takeDigits_cons_digit hdig]
      show (c :: (takeDigits cs).1).all Char.isDigit = true
      rw [List.all_cons, hdig, takeDigits_all_digits cs]
      rfl
    | false =>
      rw [takeDigits_cons_nondigit hdig]
      rfl

theorem takeDigits_of_digits : ∀ (ds rest : List Char),
    ds.all Char.isDigit = true →
    (∀ c cs2, rest = c :: cs2 → c.isDigit = false) →
    takeDigits (ds ++ rest) = (ds, rest)
  | [], rest, _, hrest => by
    cases rest with
    | nil => rfl
    | cons c cs2 =>
      show takeDigits (c :: cs2) = ([], c :: cs2)
      exact takeDigits_cons_nondigit (hrest c cs2 rfl) cs2
  | d :: ds, rest, hall, hrest => by
    rw [List.all_cons, Bool.and_eq_true] at hall
    show takeDigits (d :: (ds ++ rest)) = (d :: ds, rest)
    rw [takeDigits_cons_digit hall.1, takeDigits_of_digits ds rest hall.2 hrest]

theorem parseRangeRest_ok :
    ∀ (ds rest : List Char) (s : Nat) (oe : Option Nat),
      parseRangeRest ds rest = .ok (s, oe) →
      ds ≠ [] ∧ digitsVal ds = s ∧
      ((oe = none ∧ rest = ['-']) ∨
       (∃ e es, oe = some e ∧ es ≠ [] ∧ es.all Char.isDigit = true ∧
         digitsVal es = e ∧ s ≤ e ∧ rest = '-' :: es))
  | [], rest, s, oe, h => by simp [parseRangeRest] at h
  | d :: ds, [], s, oe, h => by simp [parseRangeRest] at h
  | d :: ds, c :: tail, s, oe, h => by
    simp only [parseRangeRest] at h
    by_cases hc : c = '-'
    · subst hc
      rw [if_pos rfl] at h
      by_cases ht : tail = []
      · subst ht
        rw [if_pos rfl] at h
        rw [Except.ok.injEq, Prod.mk.injEq] at h
        exact ⟨by simp, h.1, Or.inl ⟨h.2.symm, rfl⟩⟩
      · rw [if_neg ht] at h
        by_cases he1 : (takeDigits tail).1 = []
        · rw [if_pos he1] at h
          cases h
        · rw [if_neg he1] at h
          by_cases he2 : (takeDigits tail).2 = []
          · rw [if_pos he2] at h
            by_cases hlt : digitsVal (takeDigits tail).1 < digitsVal (d :: ds)
            · rw [if_pos hlt] at h
              cases h
            · rw [if_neg hlt] at h
              rw [Except.ok.injEq, Prod.mk.injEq] at h
              have htail : (takeDigits tail).1 = tail := by
                have happ := takeDigits_append_eq tail
                rw [he2, List.append_nil] at happ
                exact happ
              refine ⟨by simp, h.1, Or.inr ⟨digitsVal (takeDigits tail).1,
                (takeDigits tail).1, h.2.symm, he1, takeDigits_all_digits tail,
                rfl, ?_, by rw [htail]⟩⟩
              rw [← h.1]
              omega
          · rw [if_neg he2] at h
            cases h
    · rw [if_neg hc] at h
      cases h

theorem take6_bytes_append (l : List Char) :
    ("bytes=".data ++ l).take 6 = "bytes=".data := by
  have h := List.take_left "bytes=".data l
  have h6 : ("bytes=".data).length = 6 := rfl
  rw [h6] at h
  exact h

theorem drop6_bytes_append (l : List Char) :
    ("bytes=".data ++ l).drop 6 = l := by
  have h := List.drop_left "bytes=".data l
  have h6 : ("bytes=".data).length = 6 := rfl
  rw [h6] at h
  exact h

/-!
## Claim about the Range header parser
-/

/-- Claim C9: `parse_range_header` succeeds exactly on `bytes=<start>-<end>`
(with digit positions and `start ≤ end`, returning `(start, some end)`) and
`bytes=<start>-` (returning `(start, none)`); every other input is rejected —
in particular suffix ranges, units other than `bytes`, garbage, and inverted
ranges, as the appended concrete rejections record. -/
theorem parse_range_header_characterization :
    (∀ (header : String) (s : Nat) (oe : Option Nat),
      parse_range_header header = .ok (s, oe) ↔
        ∃ ds : List Char, ds ≠ [] ∧ ds.all Char.isDigit = true ∧
          digitsVal ds = s ∧
          ((oe = none ∧ header.data = "bytes=".data ++ (ds ++ ['-'])) ∨
           (∃ (e : Nat) (es : List Char), oe = some e ∧ es ≠ [] ∧
             es.all Char.isDigit = true ∧ digitsVal es = e ∧ s ≤ e ∧
             header.data = "bytes=".data ++ (ds ++ '-' :: es)))) ∧
    parse_range_header "bytes=-500" =
      .error "Unsupported or malformed Range header" ∧
    parse_range_header "items=0-99" =
      .error "Unsupported or malformed Range header" ∧
    parse_range_header "not-a-range" =
      .error "Unsupported or malformed Range header" ∧
    parse_range_header "bytes=100-50" = .error "Range end must be >= start" := by
  refine ⟨?_, rfl, rfl, rfl, rfl⟩
  intro header s oe
  constructor
  · intro h
    unfold parse_range_header at h
    by_cases hpre : header.data.take 6 = "bytes=".data
    swap
    · rw [if_neg hpre] at h
      cases h
    rw [if_pos hpre] at h
    obtain ⟨hne, hval, hcase⟩ := parseRangeRest_ok _ _ s oe h
    have hsplit : header.data = "bytes=".data ++ header.data.drop 6 := by
      conv_lhs => rw [← List.take_append_drop 6 header.data]
      rw [hpre]
    have happ := takeDigits_append_eq (header.data.drop 6)
    refine ⟨(takeDigits (header.data.drop 6)).1, hne,
      takeDigits_all_digits _, hval, ?_⟩
    rcases hcase with ⟨hoe, hrest⟩ | ⟨e, es, hoe, hesne, hesall, heval, hsle, hrest⟩
    · refine Or.inl ⟨hoe, ?_⟩
      have h2 : "bytes=".data ++ ((takeDigits (header.data.drop 6)).1 ++ ['-']) =
          header.data := by
        rw [← hrest, happ]
        exact hsplit.symm
      exact h2.symm
    · refine Or.inr ⟨e, es, hoe, hesne, hesall, heval, hsle, ?_⟩
      have h2 : "bytes=".data ++
          ((takeDigits (header.data.drop 6)).1 ++ '-' :: es) = header.data := by
        rw [← hrest, happ]
        exact hsplit.symm
      exact h2.symm
  · rintro ⟨ds, hne, hall, hval, hcase⟩
    rcases hcase with ⟨hoe, hdata⟩ | ⟨e, es, hoe, hesne, hesall, heval, hsle, hdata⟩
    · subst hoe
      unfold parse_range_header
      rw [hdata, take6_bytes_append, if_pos rfl, drop6_bytes_append]
      have hdash : ∀ (c : Char) (cs2 : List Char),
          ['-'] = c :: cs2 → c.isDigit = false := by
        intro c cs2 hcc
        cases hcc
        decide
      rw [takeDigits_of_digits ds ['-'] hall hdash]
      show parseRangeRest ds ['-'] = .ok (s, none)
      rcases ds with - | ⟨d, ds2⟩
      · exact absurd rfl hne
      · simp [parseRangeRest, hval]
    · subst hoe
      unfold parse_range_header
      rw [hdata, take6_bytes_append, if_pos rfl, drop6_bytes_append]
      have hdash : ∀ (c : Char) (cs2 : List Char),
          '-' :: es = c :: cs2 → c.isDigit = false := by
        intro c cs2 hcc
        rw [List.cons.injEq] at hcc
        rw [← hcc.1]
        decide
      rw [takeDigits_of_digits ds ('-' :: es) hall hdash]
      show parseRangeRest ds ('-' :: es) = .ok (s, some e)
      rcases ds with - | ⟨d, ds2⟩
      · exact absurd rfl hne
      · have hes : takeDigits es = (es, []) := by
          have h0 := takeDigits_of_digits es [] hesall (by intro c cs2 hcc; cases hcc)
          rwa [List.append_nil] at h0
        have hlt : ¬ digitsVal es < digitsVal (d :: ds2) := by
          rw [heval, hval]
          omega
        simp [parseRangeRest, hes, hesne, hlt, hval, heval, hsle]

/-- Witness for C9: the accepted header of the repository's `test_full_range`. -/
theorem parse_range_header_characterization_witness :
    parse_range_header "bytes=0-99" = .ok (0, some 99) :=
  (parse_range_header_characterization.1 "bytes=0-99" 0 (some 99)).mpr
    ⟨['0'], by decide, by decide, by decide,
     Or.inr ⟨99, ['9', '9'], rfl, by decide, by decide, by decide, by decide,
       by decide⟩⟩

/-- Witness for C10: construction with the package missing, at a driver that
would otherwise enumerate no devices. -/
theorem gpu_missing_package_no_translator_witness :
    GpuTranslator.construct false ⟨true, .ok 0, fun _ => .ok "", true⟩ =
      .error "package nvidia-ml-py not found. Please install it." :=
  (gpu_missing_package_no_translator ⟨true, .ok 0, fun _ => .ok "", true⟩).1
